import Mathlib

/-!
# Verification of the gold_digger normalization and upsert pipeline

A shallow embedding of the core of `src/database.py` (class `MySQLClient`):
the schema introspector (`get_table_columns`), the field mapper (the
`db_key.replace(camel, snake)` loops), the three record normalizers
(company, price, options) and the upsert statement builders, together with
a relational model of MySQL `INSERT ... ON DUPLICATE KEY UPDATE` semantics
for the `stock_prices` table.

Conventions of the embedding:
* Python `dict`s keyed by strings are association lists `List (String × α)`
  with Python assignment semantics (`dictInsert`: overwrite in place,
  else append).
* A pandas cell is `Option v` with `none` standing for a missing/NaN cell
  (`pd.notna` is `Option.isSome`); a value stored in a record is
  `Option Val` with `none` standing for Python `None` / SQL `NULL`.
* Scalar values are `Val`: strings, rationals (for Python floats), booleans,
  dates (abstracted to `Nat` day numbers) and opaque raw payloads.
* The column-mapping dictionaries imported from `utils.mapping`
  (`COMPANY_INFO_COLUMN_MAPPING_DICT`, `OPTIONS_COLUMN_MAPPING_DICT`) are
  not among the sources, so every function that reads them takes the
  ordered pair table as an explicit parameter; concrete instantiations use
  small sample tables of camelCase→snake_case pairs.
* `raise ValueError(...)` becomes `Except.error` carrying a structured
  `SaveError`; the records/statement a function hands to the database
  driver are returned in the `ok`/`submitted` result, so "no write happens
  on a validation error" is captured by the result type.
-/

set_option autoImplicit false

variable {α : Type}

/-- Scalar values flowing through the pipeline.  Python floats are modelled
as rationals, dates as abstract day numbers, and `vRaw` stands for any
other scalar payload (e.g. the pass-through `last_trade_date` timestamps). -/
inductive Val where
  | vStr (s : String)
  | vNum (q : ℚ)
  | vBool (b : Bool)
  | vDate (d : Nat)
  | vRaw (tag : Nat)
deriving DecidableEq

/-- A company-payload value as seen by `save_company_data_upsert`:
Python `None`, a composite value (dict/list/tuple/set — the payload of a
composite is never inspected, the code skips it), or a storable scalar. -/
inductive CVal where
  | pynone
  | comp (tag : Nat)
  | scalar (v : Val)
deriving DecidableEq

/-- Keys of an association list (a Python dict in insertion order). -/
def keysOf (r : List (String × α)) : List String :=
  r.map Prod.fst

/-- Python dict assignment `r[k] = v`: overwrite in place when the key is
present, append otherwise. -/
def dictInsert (r : List (String × α)) (k : String) (v : α) : List (String × α) :=
  if k ∈ keysOf r then
    r.map (fun kv => if kv.1 = k then (k, v) else kv)
  else
    r ++ [(k, v)]

/-- Python dict lookup `r.get(k)`. -/
def recGet (r : List (String × α)) (k : String) : Option α :=
  (r.find? (fun kv => decide (kv.1 = k))).map Prod.snd

/-! ## The field mapper

`save_company_data_upsert` and `save_options_data_upsert` both run

```python
db_key = key
for camel_case, snake_case in MAPPING_DICT.items():
    db_key = db_key.replace(camel_case, snake_case)
```

Python `str.replace` replaces every non-overlapping occurrence of the
pattern, scanning left to right.  We implement it on `List Char` with a
structural fuel argument (the fuel is the length of the string, so it
never runs out); this keeps every definition kernel-computable. -/

/-- Replace every non-overlapping occurrence of `p` by `r` in `s`, scanning
left to right, with structural fuel.  When `fuel ≥ s.length` and `p ≠ []`
this is exactly Python `s.replace(p, r)`. -/
def replaceAllFuel (p r : List Char) : Nat → List Char → List Char
  | _, [] => []
  | 0, s => s
  | Nat.succ n, c :: rest =>
    if p ≠ [] ∧ (c :: rest).take p.length = p then
      r ++ replaceAllFuel p r n ((c :: rest).drop p.length)
    else
      c :: replaceAllFuel p r n rest

/-- Python `s.replace(p, r)` on character lists (for nonempty `p`). -/
def replaceAll (p r s : List Char) : List Char :=
  replaceAllFuel p r s.length s

/-- Python `s.replace(p, r)` on strings. -/
def strReplace (p r s : String) : String :=
  String.mk (replaceAll p.data r.data s.data)

/-- The field mapper: fold the ordered (camelCase, snake_case) pair table
over the key, replacing substrings pair by pair. -/
def mapKey (table : List (String × String)) (k : String) : String :=
  table.foldl (fun acc pr => strReplace pr.1 pr.2 acc) k

/-- Test whether `p` occurs as a contiguous substring of `s`. -/
def occursB (p : List Char) : List Char → Bool
  | [] => p.isEmpty
  | c :: rest => (decide ((c :: rest).take p.length = p)) || occursB p rest

/-- Substring occurrence on strings. -/
def occursIn (p s : String) : Bool :=
  occursB p.data s.data

/-! ## Errors and SQL statement assembly -/

/-- The `ValueError`s raised by the normalizers, carrying the same data the
Python messages carry. -/
inductive SaveError where
  | emptyInput
  | missingColumns (missing : List String)
  | noValidData
deriving DecidableEq

/-- Python `", ".join(l)` (specialised use: `sep.join(l)`). -/
def joinSep (sep : String) : List String → String
  | [] => ""
  | [x] => x
  | x :: y :: xs => x ++ sep ++ joinSep sep (y :: xs)

/-- A storage identifier that needs no quoting: alphanumeric plus
underscore only. -/
def isSafeName (s : String) : Bool :=
  s.data.all (fun c => c.isAlphanum || c = '_')

/-- The statement text assembled by `save_company_data_upsert` (lines
106-120): bare column names, `:col` placeholders, and an update clause for
every column except the `symbol` key. -/
def companySqlFor (tableName : String) (columns : List String) : String :=
  "INSERT INTO " ++ tableName ++ " (" ++ joinSep ", " columns ++ ") VALUES (" ++
    joinSep ", " (columns.map (fun c => ":" ++ c)) ++ ") ON DUPLICATE KEY UPDATE " ++
    joinSep ", " ((columns.filter (fun c => decide (c ≠ "symbol"))).map
      (fun c => c ++ " = VALUES(" ++ c ++ ")"))

/-- The statement text assembled by `save_price_data_upsert` (lines
188-202): the fixed column list of `stock_prices`, with an update clause
for every column except the `date`/`ticker` key. -/
def priceSql : String :=
  "INSERT INTO stock_prices (" ++ joinSep ", " ["date", "ticker", "open", "high", "low", "close"] ++
    ") VALUES (" ++ joinSep ", " (["date", "ticker", "open", "high", "low", "close"].map (fun c => ":" ++ c)) ++
    ") ON DUPLICATE KEY UPDATE " ++
    joinSep ", " ((["date", "ticker", "open", "high", "low", "close"].filter
      (fun c => decide (¬ (c = "date" ∨ c = "ticker")))).map (fun c => c ++ " = VALUES(" ++ c ++ ")"))

/-- The statement text assembled by `save_options_data_upsert` (lines
306-323): every column name is wrapped in backticks, both in the insert
column list and in the update clause, which covers every column except the
`contract_symbol`/`created_at` key. -/
def optionsSqlFor (tableName : String) (columns : List String) : String :=
  "INSERT INTO " ++ tableName ++ " (" ++
    joinSep ", " (columns.map (fun c => "`" ++ c ++ "`")) ++ ") VALUES (" ++
    joinSep ", " (columns.map (fun c => ":" ++ c)) ++ ") ON DUPLICATE KEY UPDATE " ++
    joinSep ", " ((columns.filter (fun c => decide (¬ (c = "contract_symbol" ∨ c = "created_at")))).map
      (fun c => "`" ++ c ++ "` = VALUES(`" ++ c ++ "`)"))

/-! ## The company normalizer (`save_company_data_upsert`, lines 56-132) -/

/-- The filtering loop of `save_company_data_upsert` (lines 83-101): drop
`None` values, drop composite values, map the key through the pair table,
and keep the entry only when the mapped key is a live-schema column.
Assignment into `filtered_data` has Python dict semantics. -/
def companyFilteredData (table : List (String × String)) (dbColumns : List String)
    (companyData : List (String × CVal)) : List (String × Val) :=
  companyData.foldl
    (fun fd kv =>
      match kv.2 with
      | CVal.pynone => fd
      | CVal.comp _ => fd
      | CVal.scalar v =>
        let dbKey := mapKey table kv.1
        if dbKey ∈ dbColumns then dictInsert fd dbKey v else fd)
    []

/-- `save_company_data_upsert`: validate, filter, and on success return the
assembled statement together with the parameter record handed to
`connection.execute`.  A `ValueError` is modelled as `Except.error`; in
that case nothing is handed to the driver. -/
def save_company_data_upsert (table : List (String × String)) (dbColumns : List String)
    (tableName : String) (companyData : List (String × CVal)) :
    Except SaveError (String × List (String × Val)) :=
  if companyData = [] then Except.error SaveError.emptyInput
  else
    let fd := companyFilteredData table dbColumns companyData
    if fd = [] then Except.error SaveError.noValidData
    else Except.ok (companySqlFor tableName (keysOf fd), fd)

/-! ## The price normalizer (`save_price_data_upsert`, lines 134-215) -/

/-- One row of the input price DataFrame: the cells, keyed by column name;
`none` is a NaN cell. -/
abbrev PriceRow := List (String × Option ℚ)

/-- The input price DataFrame: its column list and its rows, each row
carrying its date index (pandas timestamps abstracted to day numbers). -/
structure PriceFrame where
  cols : List String
  rows : List (Nat × PriceRow)
deriving DecidableEq

/-- Cell access `row[c]` with `pd.notna` folded in: a NaN or absent cell is
`none`.  (In a real DataFrame every row has every frame column.) -/
def cellOf (row : PriceRow) (c : String) : Option ℚ :=
  match row.find? (fun kv => decide (kv.1 = c)) with
  | some kv => kv.2
  | none => none

/-- A record built for the `stock_prices` table (lines 175-182): a fixed
six-field shape; `none` fields correspond to Python `None` (SQL `NULL`). -/
structure PriceRecord where
  date : Nat
  ticker : String
  «open» : Option ℚ
  high : Option ℚ
  low : Option ℚ
  close : Option ℚ
deriving DecidableEq

/-- The missing-columns check of lines 158-161 (in required-column order). -/
def missingPriceCols (f : PriceFrame) : List String :=
  ["Open", "High", "Low", "Close"].filter (fun c => decide (c ∉ f.cols))

/-- `save_price_data_upsert`: validate emptiness and required columns, then
build one six-field record per row, `float(...) if pd.notna(...) else None`
on each numeric cell.  On success the returned list is the batch handed to
`connection.execute` (with statement `priceSql`). -/
def save_price_data_upsert (priceData : PriceFrame) (ticker : String) :
    Except SaveError (List PriceRecord) :=
  if priceData.rows = [] ∨ priceData.cols = [] then Except.error SaveError.emptyInput
  else if missingPriceCols priceData ≠ [] then
    Except.error (SaveError.missingColumns (missingPriceCols priceData))
  else
    let records := priceData.rows.map (fun r =>
      { date := r.1, ticker := ticker,
        «open» := cellOf r.2 "Open", high := cellOf r.2 "High",
        low := cellOf r.2 "Low", close := cellOf r.2 "Close" : PriceRecord })
    if records = [] then Except.error SaveError.noValidData
    else Except.ok records

/-! ## The upsert executor semantics for `stock_prices`

`INSERT INTO stock_prices ... ON DUPLICATE KEY UPDATE open = VALUES(open),
high = VALUES(high), low = VALUES(low), close = VALUES(close)` against a
table with natural key `UNIQUE(date, ticker)`: each record in the batch is
inserted; on a key collision the non-key columns of the existing row are
overwritten, the key columns stay. -/

/-- Row `x` matches the natural key `(d, tk)`. -/
def matchPK (d : Nat) (tk : String) (x : PriceRecord) : Bool :=
  decide (x.date = d ∧ x.ticker = tk)

/-- Overwrite the non-key columns of `x` with those of the new record `r`
(the `ON DUPLICATE KEY UPDATE` clause); the key columns of `x` stay. -/
def overwriteNonKey (r x : PriceRecord) : PriceRecord :=
  { x with «open» := r.«open», high := r.high, low := r.low, close := r.close }

/-- Upsert a single record into the stored table. -/
def upsertPriceRow (t : List PriceRecord) (r : PriceRecord) : List PriceRecord :=
  if t.any (matchPK r.date r.ticker) then
    t.map (fun x => if matchPK r.date r.ticker x then overwriteNonKey r x else x)
  else
    t ++ [r]

/-- Upsert a batch, record by record in batch order. -/
def upsertPriceBatch (t : List PriceRecord) (rs : List PriceRecord) : List PriceRecord :=
  rs.foldl upsertPriceRow t

/-- The stored rows carrying the natural key `(d, tk)`. -/
def rowsForKey (t : List PriceRecord) (d : Nat) (tk : String) : List PriceRecord :=
  t.filter (matchPK d tk)

/-- The `UNIQUE(date, ticker)` constraint: at most one stored row per key. -/
def pkUnique (t : List PriceRecord) : Prop :=
  ∀ d tk, (rowsForKey t d tk).length ≤ 1

/-! ## The options normalizer (`save_options_data_upsert`, lines 217-336) -/

/-- One row of the options DataFrame: cells keyed by the provider column
name, `none` for NaN (`pd.notna` fails). -/
abbrev OptRow := List (String × Option Val)

/-- The options DataFrame. -/
structure OptFrame where
  cols : List String
  rows : List OptRow
deriving DecidableEq

/-- A normalized option record handed to the driver: column name to value,
`none` being Python `None` / SQL `NULL`. -/
abbrev OptRecord := List (String × Option Val)

/-- Python `float(value)` on the scalars that reach the monetary branch
(numbers and booleans; other shapes would raise in Python and never reach
this branch in the pipeline, so they are passed through). -/
def pyFloat : Val → Val
  | Val.vNum q => Val.vNum q
  | Val.vBool b => Val.vNum (if b then 1 else 0)
  | v => v

/-- Python `int(value)` on the scalars that reach the count branch
(truncation toward zero on numbers). -/
def pyInt : Val → Val
  | Val.vNum q => Val.vNum ((Int.tdiv q.num (q.den : Int) : Int) : ℚ)
  | Val.vBool b => Val.vNum (if b then 1 else 0)
  | v => v

/-- Python `bool(value)` (truthiness). -/
def pyBool : Val → Val
  | Val.vBool b => Val.vBool b
  | Val.vNum q => Val.vBool (decide (q ≠ 0))
  | Val.vStr s => Val.vBool (decide (s ≠ ""))
  | _ => Val.vBool true

/-- Python `str(value)` on the scalars that reach the textual branch
(strings pass through; rendering of non-string scalars is not inspected by
any property, so they are passed through as well). -/
def pyStr : Val → Val
  | Val.vStr s => Val.vStr s
  | v => v

/-- The per-field type coercion of lines 283-294, keyed on the mapped
column name. -/
def coerceOpt (dbKey : String) (v : Val) : Val :=
  if dbKey ∈ ["strike_price", "last_price", "bid", "ask", "change", "percent_change", "implied_volatility"] then
    pyFloat v
  else if dbKey ∈ ["volume", "open_interest"] then pyInt v
  else if dbKey = "in_the_money" then pyBool v
  else if dbKey ∈ ["contract_symbol", "contract_size", "currency"] then pyStr v
  else v

/-- One step of the first pass (lines 245-257): a non-NaN cell whose
mapped key is a live-schema column joins the batch-wide field set
(modelled as a first-insertion-ordered duplicate-free list). -/
def collectStep (table : List (String × String)) (dbColumns : List String)
    (acc : List String) (kv : String × Option Val) : List String :=
  match kv.2 with
  | some _ =>
    let dbKey := mapKey table kv.1
    if dbKey ∈ dbColumns ∧ dbKey ∉ acc then acc ++ [dbKey] else acc
  | none => acc

/-- The first pass over the whole batch: the union of schema-valid fields
across all rows (`all_fields`). -/
def optAllFields (table : List (String × String)) (dbColumns : List String)
    (rows : List OptRow) : List String :=
  rows.foldl (fun acc row => row.foldl (collectStep table dbColumns) acc) []

/-- The null-initialization step of lines 268-270. -/
def initNone (r : OptRecord) (f : String) : OptRecord :=
  dictInsert r f none

/-- One step of the fill loop of lines 272-296: a non-NaN cell whose
mapped key is a live-schema column is written into the record with the
per-field coercion; all other cells are skipped. -/
def fillStep (table : List (String × String)) (dbColumns : List String)
    (r : OptRecord) (kv : String × Option Val) : OptRecord :=
  match kv.2 with
  | some v =>
    let dbKey := mapKey table kv.1
    if dbKey ∈ dbColumns then dictInsert r dbKey (some (coerceOpt dbKey v)) else r
  | none => r

/-- The second pass for one row (lines 260-300): start from the
caller-injected `ticker`/`expiration_date`/`created_at` fields, initialize
every batch field to `None`, fill from the row, then keep only live-schema
columns. -/
def optRecordOfRow (table : List (String × String)) (dbColumns : List String)
    (allFields : List String) (ticker expirationDate : String) (createdAt : Nat)
    (row : OptRow) : OptRecord :=
  let record0 : OptRecord :=
    [("ticker", some (Val.vStr ticker)),
     ("expiration_date", some (Val.vStr expirationDate)),
     ("created_at", some (Val.vDate createdAt))]
  let record1 := allFields.foldl initNone record0
  let record2 := row.foldl (fillStep table dbColumns) record1
  record2.filter (fun kv => decide (kv.1 ∈ dbColumns))

/-- The outcome of `save_options_data_upsert`: an empty input is skipped
with a warning (not an error); otherwise the target table name, the column
list (`records_to_insert[0].keys()`), the record batch and the assembled
statement are handed to the driver. -/
inductive OptionsOutcome where
  | skipped
  | submitted (tableName : String) (columns : List String)
      (records : List OptRecord) (sql : String)
deriving DecidableEq

/-- `save_options_data_upsert`: skip empty input, pick the table from the
option type (anything other than "puts" goes to `call_options`), run the
two normalization passes, and submit the batch with the assembled
statement. -/
def save_options_data_upsert (table : List (String × String)) (dbColumns : List String)
    (optionsData : OptFrame) (ticker optionType expirationDate : String)
    (createdAt : Nat) : OptionsOutcome :=
  if optionsData.rows = [] ∨ optionsData.cols = [] then OptionsOutcome.skipped
  else
    let tableName := if optionType = "puts" then "put_options" else "call_options"
    let allFields := optAllFields table dbColumns optionsData.rows
    let records := optionsData.rows.map
      (optRecordOfRow table dbColumns allFields ticker expirationDate createdAt)
    match records with
    | [] => OptionsOutcome.skipped
    | r0 :: rs =>
      OptionsOutcome.submitted tableName (keysOf r0) (r0 :: rs)
        (optionsSqlFor tableName (keysOf r0))

/-! ## The schema introspector (`get_table_columns`, lines 36-54) -/

/-- `get_table_columns`: run `DESCRIBE table` and collect the first field
of every returned row; on any storage error, log and return the empty set
(the function itself never raises).  The describe result is passed in as
the storage collaborator's answer. -/
def get_table_columns (describeResult : Except String (List (String × List String))) :
    Finset String :=
  match describeResult with
  | Except.ok rows => (rows.map Prod.fst).toFinset
  | Except.error _ => ∅

/-- The storage collaborator behind `DESCRIBE`: a schema maps a table name
to its describe rows when the table exists; `DESCRIBE` on a nonexistent
table is a storage error. -/
def describeTable (schema : String → Option (List (String × List String)))
    (tableName : String) : Except String (List (String × List String)) :=
  match schema tableName with
  | some rows => Except.ok rows
  | none => Except.error ("Table " ++ tableName ++ " does not exist")


/-- Row `row` holds field `k`: some cell of the row is non-NaN and its
provider column name maps to `k` under the pair table. -/
def rowHolds (table : List (String × String)) (row : OptRow) (k : String) : Prop :=
  ∃ kv ∈ row, kv.2.isSome = true ∧ mapKey table kv.1 = k

instance rowHoldsDecidable (table : List (String × String)) (row : OptRow) (k : String) :
    Decidable (rowHolds table row k) :=
  List.decidableBEx _ row

/-- A sample of the (absent) `OPTIONS_COLUMN_MAPPING_DICT` pair table, used
only to instantiate concrete runs; every theorem quantifies over the table. -/
def sampleOptTable : List (String × String) :=
  [("contractSymbol", "contract_symbol"), ("lastTradeDate", "last_trade_date"),
   ("impliedVolatility", "implied_volatility"), ("openInterest", "open_interest"),
   ("inTheMoney", "in_the_money")]

/-- A sample of the (absent) `COMPANY_INFO_COLUMN_MAPPING_DICT` pair table,
used only to instantiate concrete runs. -/
def sampleCompanyTable : List (String × String) :=
  [("longName", "long_name"), ("marketCap", "market_cap")]

/-- Concrete options row holding both `contractSymbol` and `bid`. -/
def wOptRow1 : OptRow := [("contractSymbol", some (Val.vStr "A")), ("bid", some (Val.vNum 1))]

/-- Concrete options row with a NaN `bid` cell. -/
def wOptRow2 : OptRow := [("contractSymbol", some (Val.vStr "B")), ("bid", none)]

/-- Concrete options batch with a sparse second row. -/
def wOptFrame : OptFrame := ⟨["contractSymbol", "bid"], [wOptRow1, wOptRow2]⟩

/-- Concrete live schema for the options batches. -/
def wOptDb : List String := ["contract_symbol", "created_at", "bid"]

/-- Concrete options batch whose second row has a NaN `contractSymbol`. -/
def c3OptFrame : OptFrame :=
  ⟨["contractSymbol", "bid"],
   [[("contractSymbol", some (Val.vStr "A")), ("bid", some (Val.vNum 1))],
    [("contractSymbol", none), ("bid", some (Val.vNum 2))]]⟩

/-- The first record the run on `c3OptFrame` submits. -/
def c3Rec1 : OptRecord :=
  [("created_at", some (Val.vDate 7)), ("contract_symbol", some (Val.vStr "A")),
   ("bid", some (Val.vNum 1))]

/-- The second record the run on `c3OptFrame` submits: its `contract_symbol`
key column is present but null. -/
def c3Rec2 : OptRecord :=
  [("created_at", some (Val.vDate 7)), ("contract_symbol", none),
   ("bid", some (Val.vNum 2))]

/-- Concrete options batch whose single row has a NaN `created_at` cell. -/
def c10Frame : OptFrame :=
  ⟨["created_at", "strike_price"],
   [[("created_at", none), ("strike_price", some (Val.vNum 5))]]⟩

/-- Concrete options batch whose only data column needs identifier quoting. -/
def c8Frame : OptFrame := ⟨["bad name"], [[("bad name", some (Val.vNum 3))]]⟩

/-- Concrete price DataFrame with all four required columns and one NaN
`Close` cell. -/
def wPriceFrame : PriceFrame :=
  ⟨["Open", "High", "Low", "Close", "Volume"],
   [(1, [("Open", some 10), ("High", some 12), ("Low", some 9), ("Close", none)]),
    (2, [("Open", some 11), ("High", some 13), ("Low", some 10), ("Close", some 12)])]⟩

/-- Concrete company payload: a scalar, a mappable scalar, a composite and
a null. -/
def wCompanyData : List (String × CVal) :=
  [("symbol", CVal.scalar (Val.vStr "GD")),
   ("longName", CVal.scalar (Val.vStr "Gold Digger")),
   ("companyOfficers", CVal.comp 0),
   ("website", CVal.pynone)]

/-- Concrete live schema for the company run. -/
def wCompanyDb : List String := ["symbol", "long_name", "sector"]

/-- Concrete storage schema with a single `companies` table. -/
def wSchema : String → Option (List (String × List String)) :=
  fun tableName =>
    if tableName = "companies" then some [("symbol", []), ("long_name", [])] else none

/-- A price bar for 2024-01-02 (day number 20240102). -/
def w2r1 : PriceRecord := ⟨20240102, "GD", some 10, some 12, some 9, some 11⟩

/-- The same natural key as `w2r1` with a different close value. -/
def w2r2 : PriceRecord := ⟨20240102, "GD", some 10, some 13, some 9, some 13⟩

/-! ## Association-list (Python dict) lemmas -/

@[simp] theorem keysOf_nil : keysOf ([] : List (String × α)) = [] := rfl

@[simp] theorem keysOf_cons (kv : String × α) (r : List (String × α)) :
    keysOf (kv :: r) = kv.1 :: keysOf r := rfl

@[simp] theorem keysOf_append (r s : List (String × α)) :
    keysOf (r ++ s) = keysOf r ++ keysOf s := by
  simp [keysOf]

@[simp] theorem recGet_nil (k : String) : recGet ([] : List (String × α)) k = none := rfl

theorem recGet_cons (kv : String × α) (r : List (String × α)) (k : String) :
    recGet (kv :: r) k = if kv.1 = k then some kv.2 else recGet r k := by
  by_cases h : kv.1 = k <;> simp [recGet, List.find?, h]

theorem keysOf_update (r : List (String × α)) (k : String) (v : α) :
    keysOf (r.map (fun kv => if kv.1 = k then (k, v) else kv)) = keysOf r := by
  induction r with
  | nil => rfl
  | cons kv r ih =>
    by_cases h : kv.1 = k <;> simp [h, ih]

theorem recGet_update_self (r : List (String × α)) (k : String) (v : α)
    (hk : k ∈ keysOf r) :
    recGet (r.map (fun kv => if kv.1 = k then (k, v) else kv)) k = some v := by
  induction r with
  | nil => simp [keysOf] at hk
  | cons kv r ih =>
    by_cases h : kv.1 = k
    · simp [h, recGet_cons]
    · simp only [keysOf_cons, List.mem_cons] at hk
      rcases hk with hk | hk
      · exact absurd hk.symm h
      · simpa [List.map_cons, if_neg h, recGet_cons, h] using ih hk

theorem recGet_update_ne (r : List (String × α)) (k : String) (v : α)
    (x : String) (hx : x ≠ k) :
    recGet (r.map (fun kv => if kv.1 = k then (k, v) else kv)) x = recGet r x := by
  induction r with
  | nil => rfl
  | cons kv r ih =>
    by_cases h : kv.1 = k
    · have h2 : ¬ ((k : String) = x) := fun hkx => hx hkx.symm
      simp [h, recGet_cons, h2, ih]
    · simp only [List.map_cons, if_neg h, recGet_cons, ih]

theorem recGet_append (r s : List (String × α)) (x : String) :
    recGet (r ++ s) x =
      match recGet r x with
      | some v => some v
      | none => recGet s x := by
  induction r with
  | nil => simp
  | cons kv r ih =>
    by_cases h : kv.1 = x <;> simp [List.cons_append, recGet_cons, h, ih]

theorem mem_keysOf_dictInsert (r : List (String × α)) (k : String) (v : α) (x : String) :
    x ∈ keysOf (dictInsert r k v) ↔ x ∈ keysOf r ∨ x = k := by
  unfold dictInsert
  by_cases hk : k ∈ keysOf r
  · rw [if_pos hk, keysOf_update]
    constructor
    · exact Or.inl
    · rintro (hx | hx)
      · exact hx
      · exact hx ▸ hk
  · rw [if_neg hk, keysOf_append]
    simp [keysOf]

theorem entry_of_mem_dictInsert (r : List (String × α)) (k : String) (v : α)
    (kv : String × α) (h : kv ∈ dictInsert r k v) :
    kv ∈ r ∨ kv = (k, v) := by
  unfold dictInsert at h
  by_cases hk : k ∈ keysOf r
  · rw [if_pos hk, List.mem_map] at h
    rcases h with ⟨kv0, hkv0, hx⟩
    by_cases h0 : kv0.1 = k
    · rw [if_pos h0] at hx
      exact Or.inr hx.symm
    · rw [if_neg h0] at hx
      exact Or.inl (hx ▸ hkv0)
  · rw [if_neg hk, List.mem_append, List.mem_singleton] at h
    exact h

theorem recGet_dictInsert_self (r : List (String × α)) (k : String) (v : α) :
    recGet (dictInsert r k v) k = some v := by
  unfold dictInsert
  by_cases hk : k ∈ keysOf r
  · rw [if_pos hk]
    exact recGet_update_self r k v hk
  · rw [if_neg hk, recGet_append]
    have hnone : recGet r k = none := by
      induction r with
      | nil => rfl
      | cons kv r ih =>
        simp only [keysOf_cons, List.mem_cons, not_or] at hk
        have h1 : kv.1 ≠ k := fun h => hk.1 h.symm
        simpa [recGet_cons, h1] using ih hk.2
    simp [hnone, recGet_cons]

theorem recGet_dictInsert_ne (r : List (String × α)) (k : String) (v : α)
    (x : String) (hx : x ≠ k) :
    recGet (dictInsert r k v) x = recGet r x := by
  unfold dictInsert
  by_cases hk : k ∈ keysOf r
  · rw [if_pos hk]
    exact recGet_update_ne r k v x hx
  · rw [if_neg hk, recGet_append]
    have h2 : ¬ ((k : String) = x) := fun h => hx h.symm
    cases hget : recGet r x <;> simp [hget, recGet_cons, h2]

/-! ## Field-mapper lemmas -/

theorem occursB_nil_pattern (s : List Char) : occursB [] s = true := by
  cases s <;> simp [occursB, List.isEmpty]

theorem replaceAllFuel_of_not_occurs (p r : List Char) (n : Nat) (s : List Char)
    (h : occursB p s = false) : replaceAllFuel p r n s = s := by
  induction n generalizing s with
  | zero => cases s <;> rfl
  | succ n ih =>
    cases s with
    | nil => rfl
    | cons c rest =>
      have hp : p ≠ [] := by
        intro hp
        rw [hp] at h
        simp [occursB_nil_pattern] at h
      simp only [occursB, Bool.or_eq_false_iff, decide_eq_false_iff_not] at h
      simp [replaceAllFuel, h.1, ih rest h.2]

theorem replaceAll_of_not_occurs (p r s : List Char)
    (h : occursB p s = false) : replaceAll p r s = s :=
  replaceAllFuel_of_not_occurs p r s.length s h

theorem strReplace_of_not_occurs (p r s : String)
    (h : occursIn p s = false) : strReplace p r s = s := by
  unfold strReplace
  rw [replaceAll_of_not_occurs p.data r.data s.data h]

theorem mapKey_of_no_match (table : List (String × String)) (k : String)
    (h : ∀ pr ∈ table, occursIn pr.1 k = false) : mapKey table k = k := by
  induction table with
  | nil => rfl
  | cons pr rest ih =>
    unfold mapKey
    simp only [List.foldl_cons]
    rw [strReplace_of_not_occurs pr.1 pr.2 k (h pr (List.mem_cons_self pr rest))]
    exact ih (fun q hq => h q (List.mem_cons_of_mem pr hq))

/-! ## Substring-occurrence lemmas -/

theorem occursB_append_of_right (p a b : List Char) (h : occursB p b = true) :
    occursB p (a ++ b) = true := by
  induction a with
  | nil => simpa using h
  | cons c a ih =>
    simp only [List.cons_append, occursB, Bool.or_eq_true]
    exact Or.inr ih

theorem occursB_append_of_left (p a b : List Char) (h : occursB p a = true) :
    occursB p (a ++ b) = true := by
  induction a with
  | nil =>
    simp only [occursB, List.isEmpty_iff] at h
    subst h
    simp only [List.nil_append]
    exact occursB_nil_pattern b
  | cons c a ih =>
    simp only [occursB, Bool.or_eq_true, decide_eq_true_eq] at h
    rcases h with h | h
    · have hlen : p.length ≤ (c :: a).length := by
        conv_lhs => rw [← h]
        simp only [List.length_take]
        exact Nat.min_le_right _ _
      simp only [List.cons_append, occursB, Bool.or_eq_true, decide_eq_true_eq]
      left
      have hgoal : List.take p.length ((c :: a) ++ b) = p := by
        rw [List.take_append_eq_append_take, h, Nat.sub_eq_zero_of_le hlen,
          List.take_zero, List.append_nil]
      exact hgoal
    · simp only [List.cons_append, occursB, Bool.or_eq_true]
      exact Or.inr (ih h)

theorem occursB_prefix_self (p rest : List Char) : occursB p (p ++ rest) = true := by
  cases p with
  | nil => simpa using occursB_nil_pattern rest
  | cons c p =>
    simp only [List.cons_append, occursB, Bool.or_eq_true, decide_eq_true_eq]
    left
    exact List.take_left (c :: p) rest

theorem occursIn_append_of_left (p a b : String) (h : occursIn p a = true) :
    occursIn p (a ++ b) = true := by
  unfold occursIn at h ⊢
  rw [String.data_append]
  exact occursB_append_of_left p.data a.data b.data h

theorem occursIn_append_of_right (p a b : String) (h : occursIn p b = true) :
    occursIn p (a ++ b) = true := by
  unfold occursIn at h ⊢
  rw [String.data_append]
  exact occursB_append_of_right p.data a.data b.data h

theorem occursIn_self (p : String) : occursIn p p = true := by
  unfold occursIn
  have := occursB_prefix_self p.data []
  simpa using this

theorem occursIn_mem_joinSep (x : String) (sep : String) (l : List String)
    (h : x ∈ l) : occursIn x (joinSep sep l) = true := by
  induction l with
  | nil => cases h
  | cons y ys ih =>
    cases ys with
    | nil =>
      rcases List.mem_singleton.1 h with rfl
      simpa [joinSep] using occursIn_self x
    | cons z zs =>
      rcases List.mem_cons.1 h with rfl | h
      · exact occursIn_append_of_left _ _ _
          (occursIn_append_of_left _ _ _ (occursIn_self x))
      · exact occursIn_append_of_right _ _ _ (ih h)

/-! ## Lemmas on the options normalization passes -/

theorem rowHolds_nil (table : List (String × String)) (k : String) :
    ¬ rowHolds table [] k := by
  rintro ⟨kv, hkv, -⟩
  cases hkv

theorem rowHolds_cons (table : List (String × String)) (kv : String × Option Val)
    (row : OptRow) (k : String) :
    rowHolds table (kv :: row) k ↔
      (kv.2.isSome = true ∧ mapKey table kv.1 = k) ∨ rowHolds table row k := by
  simp [rowHolds, List.exists_mem_cons_iff]

theorem mem_foldl_collect (table : List (String × String)) (db : List String)
    (row : OptRow) (k : String) :
    ∀ acc : List String,
      k ∈ row.foldl (collectStep table db) acc ↔
        k ∈ acc ∨ (k ∈ db ∧ rowHolds table row k) := by
  induction row with
  | nil => intro acc; simp [rowHolds_nil]
  | cons kv row ih =>
    intro acc
    rw [List.foldl_cons, ih, rowHolds_cons]
    cases hkv : kv.2 with
    | none => simp [collectStep, hkv]
    | some v =>
      simp only [collectStep, hkv, Option.isSome_some, true_and]
      by_cases h1 : mapKey table kv.1 ∈ db ∧ mapKey table kv.1 ∉ acc
      · rw [if_pos h1]
        by_cases hk : mapKey table kv.1 = k
        · subst hk
          simp only [List.mem_append, List.mem_singleton]
          tauto
        · simp only [List.mem_append, List.mem_singleton]
          have : ¬ k = mapKey table kv.1 := fun hkk => hk hkk.symm
          tauto
      · rw [if_neg h1]
        by_cases hk : mapKey table kv.1 = k
        · subst hk
          tauto
        · tauto

theorem mem_optAllFields (table : List (String × String)) (db : List String)
    (rows : List OptRow) (k : String) :
    k ∈ optAllFields table db rows ↔
      k ∈ db ∧ ∃ row ∈ rows, rowHolds table row k := by
  have main : ∀ acc : List String,
      k ∈ rows.foldl (fun acc row => row.foldl (collectStep table db) acc) acc ↔
        k ∈ acc ∨ (k ∈ db ∧ ∃ row ∈ rows, rowHolds table row k) := by
    induction rows with
    | nil => intro acc; simp
    | cons row rows ih =>
      intro acc
      rw [List.foldl_cons, ih, mem_foldl_collect]
      simp only [List.exists_mem_cons_iff]
      tauto
  have h := main []
  simpa [optAllFields] using h

theorem mem_keysOf_foldl_initNone (l : List String) (k : String) :
    ∀ r : OptRecord, k ∈ keysOf (l.foldl initNone r) ↔ k ∈ keysOf r ∨ k ∈ l := by
  induction l with
  | nil => intro r; simp
  | cons f l ih =>
    intro r
    rw [List.foldl_cons, ih]
    unfold initNone
    rw [mem_keysOf_dictInsert]
    simp only [List.mem_cons]
    tauto

theorem recGet_foldl_initNone_not_mem (l : List String) (k : String) (hk : k ∉ l) :
    ∀ r : OptRecord, recGet (l.foldl initNone r) k = recGet r k := by
  induction l with
  | nil => intro r; rfl
  | cons f l ih =>
    intro r
    simp only [List.mem_cons, not_or] at hk
    rw [List.foldl_cons, ih hk.2]
    exact recGet_dictInsert_ne r f none k hk.1

theorem recGet_foldl_initNone_mem (l : List String) (k : String) (hk : k ∈ l) :
    ∀ r : OptRecord, recGet (l.foldl initNone r) k = some none := by
  induction l with
  | nil => cases hk
  | cons f l ih =>
    intro r
    rw [List.foldl_cons]
    by_cases h2 : k ∈ l
    · exact ih h2 (initNone r f)
    · rcases List.mem_cons.1 hk with rfl | hmem
      · rw [recGet_foldl_initNone_not_mem l k h2]
        exact recGet_dictInsert_self r k none
      · exact absurd hmem h2

theorem mem_keysOf_foldl_fill (table : List (String × String)) (db : List String)
    (row : OptRow) (k : String) :
    ∀ r : OptRecord,
      k ∈ keysOf (row.foldl (fillStep table db) r) ↔
        k ∈ keysOf r ∨ (k ∈ db ∧ rowHolds table row k) := by
  induction row with
  | nil => intro r; simp [rowHolds_nil]
  | cons kv row ih =>
    intro r
    rw [List.foldl_cons, ih, rowHolds_cons]
    cases hkv : kv.2 with
    | none => simp [fillStep, hkv]
    | some v =>
      simp only [fillStep, hkv, Option.isSome_some, true_and]
      by_cases h1 : mapKey table kv.1 ∈ db
      · rw [if_pos h1, mem_keysOf_dictInsert]
        by_cases hk : mapKey table kv.1 = k
        · subst hk
          tauto
        · have : ¬ k = mapKey table kv.1 := fun hkk => hk hkk.symm
          tauto
      · rw [if_neg h1]
        by_cases hk : mapKey table kv.1 = k
        · subst hk
          tauto
        · tauto

theorem recGet_foldl_fill_untouched (table : List (String × String)) (db : List String)
    (row : OptRow) (k : String)
    (h : ∀ kv ∈ row, kv.2.isSome = true → mapKey table kv.1 ≠ k) :
    ∀ r : OptRecord, recGet (row.foldl (fillStep table db) r) k = recGet r k := by
  induction row with
  | nil => intro r; rfl
  | cons kv row ih =>
    intro r
    have hrest : ∀ kv ∈ row, kv.2.isSome = true → mapKey table kv.1 ≠ k :=
      fun kv2 hkv2 => h kv2 (List.mem_cons_of_mem kv hkv2)
    rw [List.foldl_cons, ih hrest]
    cases hkv : kv.2 with
    | none => simp [fillStep, hkv]
    | some v =>
      have hne : mapKey table kv.1 ≠ k :=
        h kv (List.mem_cons_self kv row) (by simp [hkv])
      simp only [fillStep, hkv]
      by_cases h1 : mapKey table kv.1 ∈ db
      · rw [if_pos h1]
        exact recGet_dictInsert_ne r (mapKey table kv.1) _ k (fun hkk => hne hkk.symm)
      · rw [if_neg h1]

theorem recGet_filter_db (db : List String) (k : String) :
    ∀ r : OptRecord,
      recGet (r.filter (fun kv => decide (kv.1 ∈ db))) k =
        if k ∈ db then recGet r k else none := by
  intro r
  induction r with
  | nil => simp
  | cons kv r ih =>
    by_cases hdb : kv.1 ∈ db
    · by_cases hk : kv.1 = k
      · subst hk
        simp [List.filter_cons, hdb, recGet_cons]
      · simp [List.filter_cons, hdb, recGet_cons, hk, ih]
    · by_cases hk : kv.1 = k
      · subst hk
        simp [List.filter_cons, hdb, recGet_cons, ih]
      · simp [List.filter_cons, hdb, recGet_cons, hk, ih]

theorem mem_keysOf_filter_db (db : List String) (k : String) (r : OptRecord) :
    k ∈ keysOf (r.filter (fun kv => decide (kv.1 ∈ db))) ↔ k ∈ keysOf r ∧ k ∈ db := by
  simp only [keysOf, List.mem_map, List.mem_filter, decide_eq_true_eq]
  constructor
  · rintro ⟨kv, ⟨hkv, hdb⟩, rfl⟩
    exact ⟨⟨kv, hkv, rfl⟩, hdb⟩
  · rintro ⟨⟨kv, hkv, rfl⟩, hdb⟩
    exact ⟨kv, ⟨hkv, hdb⟩, rfl⟩

/-! ## Shape of a normalized option record -/

theorem mem_keysOf_optRecordOfRow (table : List (String × String)) (db : List String)
    (allFields : List String) (ticker expirationDate : String) (createdAt : Nat)
    (row : OptRow) (k : String) :
    k ∈ keysOf (optRecordOfRow table db allFields ticker expirationDate createdAt row) ↔
      (k ∈ ["ticker", "expiration_date", "created_at"] ∨ k ∈ allFields ∨
        (k ∈ db ∧ rowHolds table row k)) ∧ k ∈ db := by
  unfold optRecordOfRow
  rw [mem_keysOf_filter_db, mem_keysOf_foldl_fill, mem_keysOf_foldl_initNone]
  simp only [keysOf_cons, keysOf_nil, List.mem_cons, List.mem_singleton]
  tauto

theorem recGet_optRecordOfRow_null (table : List (String × String)) (db : List String)
    (allFields : List String) (ticker expirationDate : String) (createdAt : Nat)
    (row : OptRow) (k : String) (hdb : k ∈ db) (hall : k ∈ allFields)
    (hlacks : ∀ kv ∈ row, kv.2.isSome = true → mapKey table kv.1 ≠ k) :
    recGet (optRecordOfRow table db allFields ticker expirationDate createdAt row) k =
      some none := by
  unfold optRecordOfRow
  rw [recGet_filter_db, if_pos hdb, recGet_foldl_fill_untouched table db row k hlacks,
    recGet_foldl_initNone_mem allFields k hall]

/-- Inversion of a submitted `save_options_data_upsert` run. -/
theorem save_options_submitted_inv (table : List (String × String)) (db : List String)
    (f : OptFrame) (ticker optionType expirationDate : String) (createdAt : Nat)
    (tn : String) (cols : List String) (recs : List OptRecord) (sql : String)
    (h : save_options_data_upsert table db f ticker optionType expirationDate createdAt =
      OptionsOutcome.submitted tn cols recs sql) :
    recs = f.rows.map (optRecordOfRow table db (optAllFields table db f.rows)
        ticker expirationDate createdAt) ∧
    (∃ r0 rs, recs = r0 :: rs ∧ cols = keysOf r0 ∧ sql = optionsSqlFor tn cols) ∧
    tn = (if optionType = "puts" then "put_options" else "call_options") := by
  unfold save_options_data_upsert at h
  by_cases hempty : f.rows = [] ∨ f.cols = []
  · rw [if_pos hempty] at h
    cases h
  · rw [if_neg hempty] at h
    dsimp only at h
    rcases hrec : f.rows.map (optRecordOfRow table db (optAllFields table db f.rows)
        ticker expirationDate createdAt) with _ | ⟨r0, rs⟩
    · rw [hrec] at h
      cases h
    · rw [hrec] at h
      rcases h with ⟨⟩
      exact ⟨rfl, ⟨r0, rs, rfl, rfl, rfl⟩, rfl⟩

/-- Inversion of a successful `save_price_data_upsert` run. -/
theorem save_price_ok_inv (f : PriceFrame) (ticker : String) (recs : List PriceRecord)
    (h : save_price_data_upsert f ticker = Except.ok recs) :
    recs = f.rows.map (fun r =>
      { date := r.1, ticker := ticker,
        «open» := cellOf r.2 "Open", high := cellOf r.2 "High",
        low := cellOf r.2 "Low", close := cellOf r.2 "Close" : PriceRecord }) := by
  unfold save_price_data_upsert at h
  by_cases hempty : f.rows = [] ∨ f.cols = []
  · rw [if_pos hempty] at h
    cases h
  · rw [if_neg hempty] at h
    by_cases hmiss : missingPriceCols f ≠ []
    · rw [if_pos hmiss] at h
      cases h
    · rw [if_neg hmiss] at h
      by_cases hrecs : f.rows.map (fun r =>
          { date := r.1, ticker := ticker,
            «open» := cellOf r.2 "Open", high := cellOf r.2 "High",
            low := cellOf r.2 "Low", close := cellOf r.2 "Close" : PriceRecord }) = []
      · rw [if_pos hrecs] at h
        cases h
      · rw [if_neg hrecs] at h
        rcases h with ⟨⟩
        rfl

/-! ## Lemmas on the company filtering fold -/

theorem companyFilteredData_entry_inv (table : List (String × String)) (db : List String)
    (companyData : List (String × CVal)) (kv : String × Val)
    (h : kv ∈ companyFilteredData table db companyData) :
    kv.1 ∈ db ∧ ∃ k0, (k0, CVal.scalar kv.2) ∈ companyData ∧ mapKey table k0 = kv.1 := by
  have main : ∀ (data : List (String × CVal)) (acc : List (String × Val)),
      kv ∈ data.foldl
        (fun fd kv0 =>
          match kv0.2 with
          | CVal.pynone => fd
          | CVal.comp _ => fd
          | CVal.scalar v =>
            let dbKey := mapKey table kv0.1
            if dbKey ∈ db then dictInsert fd dbKey v else fd)
        acc →
      kv ∈ acc ∨ (kv.1 ∈ db ∧ ∃ k0, (k0, CVal.scalar kv.2) ∈ data ∧ mapKey table k0 = kv.1) := by
    intro data
    induction data with
    | nil => intro acc hacc; exact Or.inl hacc
    | cons d0 data ih =>
      intro acc hacc
      rw [List.foldl_cons] at hacc
      rcases ih _ hacc with hmem | ⟨hdb, k0, hk0, hmap⟩
      · rcases hd0 : d0.2 with _ | tag | v
        · rw [hd0] at hmem
          exact Or.inl hmem
        · rw [hd0] at hmem
          exact Or.inl hmem
        · rw [hd0] at hmem
          by_cases hdb : mapKey table d0.1 ∈ db
          · simp only [if_pos hdb] at hmem
            rcases entry_of_mem_dictInsert _ _ _ _ hmem with hmem | rfl
            · exact Or.inl hmem
            · refine Or.inr ⟨hdb, d0.1, ?_, rfl⟩
              have : d0 = (d0.1, CVal.scalar v) := by
                cases d0
                simpa using hd0
              exact this ▸ List.mem_cons_self d0 data
          · simp only [if_neg hdb] at hmem
            exact Or.inl hmem
      · exact Or.inr ⟨hdb, k0, List.mem_cons_of_mem d0 hk0, hmap⟩
  rcases main companyData [] h with hmem | hgood
  · cases hmem
  · exact hgood

/-- Inversion of a successful `save_company_data_upsert` run. -/
theorem save_company_ok_inv (table : List (String × String)) (db : List String)
    (tableName : String) (companyData : List (String × CVal)) (sql : String)
    (fd : List (String × Val))
    (h : save_company_data_upsert table db tableName companyData = Except.ok (sql, fd)) :
    fd = companyFilteredData table db companyData ∧
    sql = companySqlFor tableName (keysOf fd) := by
  unfold save_company_data_upsert at h
  by_cases hempty : companyData = []
  · rw [if_pos hempty] at h
    cases h
  · rw [if_neg hempty] at h
    by_cases hfd : companyFilteredData table db companyData = []
    · simp only [hfd, if_pos] at h
      cases h
    · rw [if_neg hfd] at h
      rcases h with ⟨⟩
      exact ⟨rfl, rfl⟩

/-! ## Lemmas on the stock_prices upsert semantics -/

theorem matchPK_overwriteNonKey (d : Nat) (tk : String) (r x : PriceRecord) :
    matchPK d tk (overwriteNonKey r x) = matchPK d tk x := by
  simp [matchPK, overwriteNonKey]

theorem rowsForKey_append (t s : List PriceRecord) (d : Nat) (tk : String) :
    rowsForKey (t ++ s) d tk = rowsForKey t d tk ++ rowsForKey s d tk := by
  simp [rowsForKey, List.filter_append]

theorem rowsForKey_map_overwrite (t : List PriceRecord) (r : PriceRecord)
    (d : Nat) (tk : String) :
    rowsForKey (t.map (fun x => if matchPK d tk x then overwriteNonKey r x else x)) d tk =
      (rowsForKey t d tk).map (overwriteNonKey r) := by
  unfold rowsForKey
  induction t with
  | nil => rfl
  | cons x t ih =>
    cases h : matchPK d tk x with
    | true => simp [List.filter_cons, h, matchPK_overwriteNonKey, ih]
    | false => simp [List.filter_cons, h, matchPK_overwriteNonKey, ih]

theorem rowsForKey_of_not_any (t : List PriceRecord) (d : Nat) (tk : String)
    (h : t.any (matchPK d tk) = false) : rowsForKey t d tk = [] := by
  rw [rowsForKey, List.filter_eq_nil_iff]
  intro x hx
  have := List.any_eq_false.1 h x hx
  simpa using this

theorem rowsForKey_upsert_found (t : List PriceRecord) (r : PriceRecord)
    (hany : t.any (matchPK r.date r.ticker) = true) :
    rowsForKey (upsertPriceRow t r) r.date r.ticker =
      (rowsForKey t r.date r.ticker).map (overwriteNonKey r) := by
  unfold upsertPriceRow
  rw [if_pos hany]
  exact rowsForKey_map_overwrite t r r.date r.ticker

theorem rowsForKey_upsert_fresh (t : List PriceRecord) (r : PriceRecord)
    (hany : t.any (matchPK r.date r.ticker) = false) :
    rowsForKey (upsertPriceRow t r) r.date r.ticker = [r] := by
  unfold upsertPriceRow
  rw [hany]
  simp only [Bool.false_eq_true, if_false, rowsForKey_append,
    rowsForKey_of_not_any t r.date r.ticker hany, List.nil_append]
  have hr : matchPK r.date r.ticker r = true := by
    simp [matchPK]
  simp [rowsForKey, List.filter_cons, hr]

theorem mem_rowsForKey (t : List PriceRecord) (d : Nat) (tk : String) (x : PriceRecord)
    (hx : x ∈ rowsForKey t d tk) : x.date = d ∧ x.ticker = tk := by
  have := List.of_mem_filter hx
  simpa [matchPK] using this

theorem rowsForKey_singleton_of_any (t : List PriceRecord) (d : Nat) (tk : String)
    (hU : pkUnique t) (hany : t.any (matchPK d tk) = true) :
    ∃ x, rowsForKey t d tk = [x] ∧ x.date = d ∧ x.ticker = tk := by
  rcases List.any_eq_true.1 hany with ⟨x, hxmem, hxmatch⟩
  have hxfilter : x ∈ rowsForKey t d tk := List.mem_filter.2 ⟨hxmem, hxmatch⟩
  have hlen := hU d tk
  rcases hrows : rowsForKey t d tk with _ | ⟨y, ys⟩
  · rw [hrows] at hxfilter
    cases hxfilter
  · rcases ys with _ | ⟨z, zs⟩
    · rw [hrows] at hxfilter
      rcases List.mem_singleton.1 hxfilter with rfl
      exact ⟨x, rfl, mem_rowsForKey t d tk x (hrows ▸ List.mem_singleton_self x)⟩
    · rw [hrows] at hlen
      simp at hlen

/-- C2 (supporting computation): upserting two records with the same
`(date, ticker)` natural key, the second one last, leaves exactly one
stored row for that key: the one whose key columns are the shared key and
whose non-key columns come from the second record. -/
theorem upsert_twice_same_key (t : List PriceRecord) (r1 r2 : PriceRecord)
    (hU : pkUnique t) (hdate : r1.date = r2.date) (hticker : r1.ticker = r2.ticker) :
    rowsForKey (upsertPriceRow (upsertPriceRow t r1) r2) r2.date r2.ticker =
      [{ date := r2.date, ticker := r2.ticker, «open» := r2.«open»,
         high := r2.high, low := r2.low, close := r2.close }] := by
  cases hany : t.any (matchPK r1.date r1.ticker) with
  | true =>
    rcases rowsForKey_singleton_of_any t r1.date r1.ticker hU hany with ⟨x, hx, hxd, hxt⟩
    have h1 : rowsForKey (upsertPriceRow t r1) r1.date r1.ticker =
        [overwriteNonKey r1 x] := by
      rw [rowsForKey_upsert_found t r1 hany, hx]
      rfl
    have hany2 : (upsertPriceRow t r1).any (matchPK r2.date r2.ticker) = true := by
      rcases List.any_eq_true.1 hany with ⟨y, hymem, hymatch⟩
      apply List.any_eq_true.2
      refine ⟨overwriteNonKey r1 x, ?_, ?_⟩
      · have : overwriteNonKey r1 x ∈ rowsForKey (upsertPriceRow t r1) r1.date r1.ticker := by
          rw [h1]
          exact List.mem_singleton_self _
        exact List.mem_of_mem_filter this
      · rw [matchPK_overwriteNonKey]
        simp [matchPK, hxd, hxt, hdate, hticker]
    rw [rowsForKey_upsert_found (upsertPriceRow t r1) r2 hany2, ← hdate, ← hticker, h1]
    simp only [List.map_cons, List.map_nil, List.cons.injEq, and_true]
    simp [overwriteNonKey, hxd, hxt, hdate, hticker]
  | false =>
    have h1 : rowsForKey (upsertPriceRow t r1) r1.date r1.ticker = [r1] :=
      rowsForKey_upsert_fresh t r1 hany
    have hany2 : (upsertPriceRow t r1).any (matchPK r2.date r2.ticker) = true := by
      apply List.any_eq_true.2
      refine ⟨r1, ?_, ?_⟩
      · have : r1 ∈ rowsForKey (upsertPriceRow t r1) r1.date r1.ticker := by
          rw [h1]
          exact List.mem_singleton_self _
        exact List.mem_of_mem_filter this
      · simp [matchPK, hdate, hticker]
    rw [rowsForKey_upsert_found (upsertPriceRow t r1) r2 hany2, ← hdate, ← hticker, h1]
    simp [overwriteNonKey, hdate, hticker]

/-! ## The claims -/

/-- C4: the field mapper applies its (source substring → target substring)
pairs sequentially in table order, so later pairs transform the output of
earlier pairs: for the table [("A" → "B"), ("B" → "C")], input "A" yields
"C", not "B"; and a name in which no pair's source substring occurs passes
through unchanged.  Determinism is immediate: `mapKey` is a pure function
of the table and the name. -/
theorem claim_C4_field_mapper :
    mapKey [("A", "B"), ("B", "C")] "A" = "C" ∧
    (∀ (table : List (String × String)) (k : String),
      (∀ pr ∈ table, occursIn pr.1 k = false) → mapKey table k = k) :=
  ⟨by decide, mapKey_of_no_match⟩

/-- C4 witness: the chained-substitution example evaluates to "C", and a
name matching no pair ("symbol") passes through unchanged. -/
theorem claim_C4_witness :
    mapKey [("A", "B"), ("B", "C")] "A" = "C" ∧
    mapKey [("A", "B"), ("B", "C")] "symbol" = "symbol" :=
  ⟨claim_C4_field_mapper.1,
   claim_C4_field_mapper.2 [("A", "B"), ("B", "C")] "symbol" (by decide)⟩

/-- C2: for every stored `stock_prices` state satisfying the
`UNIQUE(date, ticker)` constraint, upserting the same price bar twice —
same `(ticker, date)` natural key, the second call carrying a different
close value — leaves exactly one row for that key, and that row has the
second call's non-key column values (in particular its close), while its
key columns are the shared key: overwrite on conflict, never
duplication. -/
theorem claim_C2_upsert_idempotent_overwrite (t : List PriceRecord)
    (r1 r2 : PriceRecord) (hU : pkUnique t) (hdate : r1.date = r2.date)
    (hticker : r1.ticker = r2.ticker) (_hclose : r1.close ≠ r2.close) :
    rowsForKey (upsertPriceRow (upsertPriceRow t r1) r2) r2.date r2.ticker =
      [{ date := r2.date, ticker := r2.ticker, «open» := r2.«open»,
         high := r2.high, low := r2.low, close := r2.close }] :=
  upsert_twice_same_key t r1 r2 hU hdate hticker

/-- C2 witness: upserting the bar for (2024-01-02, "GD") twice into an
empty table, the second time with close 25/2 instead of 11, leaves one row
with close 25/2. -/
theorem claim_C2_witness :
    pkUnique [] ∧ w2r1.close ≠ w2r2.close ∧
    rowsForKey (upsertPriceRow (upsertPriceRow [] w2r1) w2r2) 20240102 "GD" =
      [⟨20240102, "GD", some 10, some 13, some 9, some 13⟩] := by
  have hU : pkUnique [] := by
    intro d tk
    simp [rowsForKey]
  refine ⟨hU, by decide, ?_⟩
  exact claim_C2_upsert_idempotent_overwrite [] w2r1 w2r2 hU rfl rfl (by decide)

/-- C6: for every non-empty price table containing the four required OHLC
columns, normalization succeeds and produces exactly one record per input
row, each a fixed six-field record whose ticker is the caller-supplied
ticker, whose date is the row's index, and whose numeric fields are the
row's cells with every missing/NaN cell mapped to null (`none`), never to
zero. -/
theorem claim_C6_price_normalization (f : PriceFrame) (ticker : String)
    (hrows : f.rows ≠ []) (hcols : f.cols ≠ [])
    (hreq : ∀ c ∈ ["Open", "High", "Low", "Close"], c ∈ f.cols) :
    save_price_data_upsert f ticker = Except.ok (f.rows.map (fun r =>
      { date := r.1, ticker := ticker,
        «open» := cellOf r.2 "Open", high := cellOf r.2 "High",
        low := cellOf r.2 "Low", close := cellOf r.2 "Close" : PriceRecord })) := by
  unfold save_price_data_upsert
  rw [if_neg (by simp [hrows, hcols])]
  have hmiss : missingPriceCols f = [] := by
    rw [missingPriceCols, List.filter_eq_nil_iff]
    intro c hc
    simp [hreq c hc]
  rw [hmiss]
  simp only [ne_eq, not_true_eq_false, if_false]
  rw [if_neg]
  simp [hrows]

/-- C6 witness: a two-row frame with a NaN close on the first row yields
exactly two records, with the NaN cell as null. -/
theorem claim_C6_witness :
    save_price_data_upsert wPriceFrame "GD" = Except.ok
      [⟨1, "GD", some 10, some 12, some 9, none⟩,
       ⟨2, "GD", some 11, some 13, some 10, some 12⟩] :=
  claim_C6_price_normalization wPriceFrame "GD" (by decide) (by decide) (by decide)

/-- C9: `get_table_columns` returns exactly the set of column names of the
described table, and on a storage error — in particular `DESCRIBE` against
a nonexistent table — it returns the empty set instead of raising (the
function is total: the driver's exception is caught and only logged). -/
theorem claim_C9_get_table_columns :
    (∀ (schema : String → Option (List (String × List String))) (tableName : String)
      (rows : List (String × List String)), schema tableName = some rows →
      ∀ k, k ∈ get_table_columns (describeTable schema tableName) ↔
        ∃ extra, (k, extra) ∈ rows) ∧
    (∀ (schema : String → Option (List (String × List String))) (tableName : String),
      schema tableName = none →
      get_table_columns (describeTable schema tableName) = ∅) := by
  constructor
  · intro schema tableName rows h k
    unfold describeTable
    rw [h]
    unfold get_table_columns
    simp only [List.mem_toFinset, List.mem_map]
    constructor
    · rintro ⟨⟨k0, extra⟩, hmem, rfl⟩
      exact ⟨extra, hmem⟩
    · rintro ⟨extra, hmem⟩
      exact ⟨(k, extra), hmem, rfl⟩
  · intro schema tableName h
    unfold describeTable
    rw [h]
    rfl

/-- C9 witness: describing a table absent from the schema yields the empty
set without raising, and describing `companies` yields its columns. -/
theorem claim_C9_witness :
    get_table_columns (describeTable wSchema "no_such_table") = ∅ ∧
    "symbol" ∈ get_table_columns (describeTable wSchema "companies") :=
  ⟨claim_C9_get_table_columns.2 wSchema "no_such_table" rfl,
   (claim_C9_get_table_columns.1 wSchema "companies" _ rfl "symbol").mpr
     ⟨[], by decide⟩⟩

/-- C1: every record the normalizers hand to the upsert step contains only
keys that belong to the live-schema column set of the target table: a
successful company run only ever emits mapped keys that were checked
against `db_columns`, and every submitted option record is filtered
against `db_columns`; in particular no output key lies outside the
schema. -/
theorem claim_C1_schema_projection :
    (∀ (table : List (String × String)) (db : List String) (tableName : String)
      (companyData : List (String × CVal)) (sql : String) (fd : List (String × Val)),
      save_company_data_upsert table db tableName companyData = Except.ok (sql, fd) →
      ∀ kv ∈ fd, kv.1 ∈ db) ∧
    (∀ (table : List (String × String)) (db : List String) (f : OptFrame)
      (ticker optionType expirationDate : String) (createdAt : Nat)
      (tn : String) (cols : List String) (recs : List OptRecord) (sql : String),
      save_options_data_upsert table db f ticker optionType expirationDate createdAt =
        OptionsOutcome.submitted tn cols recs sql →
      ∀ rec ∈ recs, ∀ kv ∈ rec, kv.1 ∈ db) := by
  constructor
  · intro table db tableName companyData sql fd h kv hkv
    rcases save_company_ok_inv table db tableName companyData sql fd h with ⟨rfl, -⟩
    exact (companyFilteredData_entry_inv table db companyData kv hkv).1
  · intro table db f ticker optionType expirationDate createdAt tn cols recs sql h
      rec hrec kv hkv
    rcases save_options_submitted_inv table db f ticker optionType expirationDate
      createdAt tn cols recs sql h with ⟨hrecs, -, -⟩
    rw [hrecs] at hrec
    rcases List.mem_map.1 hrec with ⟨row, -, rfl⟩
    have := List.mem_filter.1 hkv
    simpa using this.2

/-- C1 witness: on the concrete company payload the surviving keys lie in
the schema, and on the concrete sparse options batch the submitted record
keys lie in the schema. -/
theorem claim_C1_witness :
    "long_name" ∈ wCompanyDb ∧ "bid" ∈ wOptDb :=
  ⟨claim_C1_schema_projection.1 sampleCompanyTable wCompanyDb "companies" wCompanyData
      _ _ rfl ("long_name", Val.vStr "Gold Digger") (by decide),
   claim_C1_schema_projection.2 sampleOptTable wOptDb wOptFrame "T" "puts" "2024-01-19" 7
      _ _ _ _ rfl
      [("created_at", some (Val.vDate 7)), ("contract_symbol", some (Val.vStr "A")),
       ("bid", some (Val.vNum 1))] (by decide)
      ("bid", some (Val.vNum 1)) (by decide)⟩

/-- C7: normalization raises a validation error, with nothing handed to
storage, exactly when the input is not persistable: the company variant
fails precisely when the record is empty after filtering nulls, composites
and non-schema fields; the price variant fails precisely when the input
table is empty or lacks a required OHLC column, and in the missing-column
case the error enumerates exactly the missing columns. -/
theorem claim_C7_validation_errors :
    (∀ (table : List (String × String)) (db : List String) (tableName : String)
      (companyData : List (String × CVal)),
      (∃ e, save_company_data_upsert table db tableName companyData = Except.error e) ↔
        companyFilteredData table db companyData = []) ∧
    (∀ (f : PriceFrame) (ticker : String),
      (∃ e, save_price_data_upsert f ticker = Except.error e) ↔
        (f.rows = [] ∨ f.cols = [] ∨ missingPriceCols f ≠ [])) ∧
    (∀ (f : PriceFrame) (ticker : String),
      ¬ (f.rows = [] ∨ f.cols = []) → missingPriceCols f ≠ [] →
      save_price_data_upsert f ticker =
        Except.error (SaveError.missingColumns (missingPriceCols f))) := by
  refine ⟨?_, ?_, ?_⟩
  · intro table db tableName companyData
    unfold save_company_data_upsert
    by_cases hempty : companyData = []
    · rw [if_pos hempty]
      subst hempty
      simp [companyFilteredData]
    · rw [if_neg hempty]
      by_cases hfd : companyFilteredData table db companyData = []
      · simp [hfd]
      · simp [hfd]
  · intro f ticker
    unfold save_price_data_upsert
    by_cases hempty : f.rows = [] ∨ f.cols = []
    · rw [if_pos hempty]
      simp [hempty]
      tauto
    · rw [if_neg hempty]
      by_cases hmiss : missingPriceCols f ≠ []
      · rw [if_pos hmiss]
        simp only [ne_eq] at hmiss
        constructor
        · intro
          tauto
        · intro
          exact ⟨SaveError.missingColumns (missingPriceCols f), rfl⟩
      · rw [if_neg hmiss]
        rw [not_or] at hempty
        have hrecs : f.rows.map (fun r =>
            { date := r.1, ticker := ticker,
              «open» := cellOf r.2 "Open", high := cellOf r.2 "High",
              low := cellOf r.2 "Low", close := cellOf r.2 "Close" : PriceRecord }) ≠ [] := by
          simpa using hempty.1
        rw [if_neg hrecs]
        simp only [ne_eq] at hmiss
        constructor
        · rintro ⟨e, he⟩
          cases he
        · intro hcase
          rcases hcase with hcase | hcase | hcase
          · exact absurd hcase hempty.1
          · exact absurd hcase hempty.2
          · exact absurd hcase hmiss
  · intro f ticker hempty hmiss
    unfold save_price_data_upsert
    rw [if_neg hempty, if_pos hmiss]

/-- C7 witness: a company payload that is all nulls/composites errors out,
and a price frame missing High and Close errors with exactly those columns
enumerated. -/
theorem claim_C7_witness :
    (∃ e, save_company_data_upsert sampleCompanyTable ["symbol"] "companies"
      [("website", CVal.pynone), ("companyOfficers", CVal.comp 0)] = Except.error e) ∧
    save_price_data_upsert ⟨["Open", "Low"], [(1, [("Open", some 10), ("Low", some 9)])]⟩
      "GD" = Except.error (SaveError.missingColumns ["High", "Close"]) := by
  constructor
  · exact (claim_C7_validation_errors.1 sampleCompanyTable ["symbol"] "companies"
      [("website", CVal.pynone), ("companyOfficers", CVal.comp 0)]).mpr (by decide)
  · have h := claim_C7_validation_errors.2.2
      ⟨["Open", "Low"], [(1, [("Open", some 10), ("Low", some 9)])]⟩ "GD"
      (by decide) (by decide)
    exact h

/-- C3 (amended): the company path never submits a null value at all —
every value in a submitted company record is the value of a non-null
scalar source field whose mapped name is the record key — and every
submitted price record carries the caller-supplied ticker and a date taken
from some input row index in its natural-key columns.  (The options path
is deliberately excluded: it can submit a record whose `contract_symbol`
key column is null, see the counterexample.) -/
theorem claim_C3_amended_key_columns :
    (∀ (table : List (String × String)) (db : List String) (tableName : String)
      (companyData : List (String × CVal)) (sql : String) (fd : List (String × Val)),
      save_company_data_upsert table db tableName companyData = Except.ok (sql, fd) →
      ∀ kv ∈ fd, ∃ k0, (k0, CVal.scalar kv.2) ∈ companyData ∧ mapKey table k0 = kv.1) ∧
    (∀ (f : PriceFrame) (ticker : String) (recs : List PriceRecord),
      save_price_data_upsert f ticker = Except.ok recs →
      ∀ rec ∈ recs, rec.ticker = ticker ∧ ∃ row ∈ f.rows, rec.date = row.1) := by
  constructor
  · intro table db tableName companyData sql fd h kv hkv
    rcases save_company_ok_inv table db tableName companyData sql fd h with ⟨rfl, -⟩
    exact (companyFilteredData_entry_inv table db companyData kv hkv).2
  · intro f ticker recs h rec hrec
    rw [save_price_ok_inv f ticker recs h] at hrec
    rcases List.mem_map.1 hrec with ⟨row, hrow, rfl⟩
    exact ⟨rfl, row, hrow, rfl⟩

/-- C3 witness: on the concrete inputs, the surviving company value is the
source scalar, and the price record keeps the caller ticker and row
date. -/
theorem claim_C3_witness :
    (∃ k0, (k0, CVal.scalar (Val.vStr "GD")) ∈ wCompanyData ∧
      mapKey sampleCompanyTable k0 = "symbol") ∧
    ((⟨1, "GD", some 10, some 12, some 9, none⟩ : PriceRecord).ticker = "GD" ∧
      ∃ row ∈ wPriceFrame.rows,
        (⟨1, "GD", some 10, some 12, some 9, none⟩ : PriceRecord).date = row.1) :=
  ⟨claim_C3_amended_key_columns.1 sampleCompanyTable wCompanyDb "companies" wCompanyData
      _ _ rfl ("symbol", Val.vStr "GD") (by decide),
   claim_C3_amended_key_columns.2 wPriceFrame "GD" _ rfl
      ⟨1, "GD", some 10, some 12, some 9, none⟩ (by decide)⟩

/-- C3 counterexample: the claim as stated fails on the options path.  In
a batch whose first row holds `contractSymbol` and whose second row has it
NaN, the second row is not rejected: it is submitted with a null value in
the `contract_symbol` natural-key column. -/
theorem claim_C3_counterexample :
    save_options_data_upsert sampleOptTable wOptDb c3OptFrame "T" "puts" "2024-01-19" 7 =
      OptionsOutcome.submitted "put_options" ["created_at", "contract_symbol", "bid"]
        [c3Rec1, c3Rec2]
        "INSERT INTO put_options (`created_at`, `contract_symbol`, `bid`) VALUES (:created_at, :contract_symbol, :bid) ON DUPLICATE KEY UPDATE `bid` = VALUES(`bid`)" ∧
    recGet c3Rec2 "contract_symbol" = some none := by
  constructor
  · decide
  · decide

/-- C5 (amended): option normalization computes the union of schema-valid
fields over all rows in its first pass, and every submitted record has one
and the same column set: that union together with whichever of the
caller-injected `ticker`/`expiration_date`/`created_at` fields are in the
live schema.  In particular, when some row of the batch holds a
schema-valid field X and another row lacks X, both submitted records
contain key X and the lacking row's value for X is null. -/
theorem claim_C5_amended_batch_union (table : List (String × String))
    (db : List String) (f : OptFrame) (ticker optionType expirationDate : String)
    (createdAt : Nat) (tn : String) (cols : List String) (recs : List OptRecord)
    (sql : String)
    (h : save_options_data_upsert table db f ticker optionType expirationDate createdAt =
      OptionsOutcome.submitted tn cols recs sql) :
    (∀ rec ∈ recs, ∀ k, k ∈ keysOf rec ↔
      ((k ∈ ["ticker", "expiration_date", "created_at"] ∨
        k ∈ optAllFields table db f.rows) ∧ k ∈ db)) ∧
    (∀ row ∈ f.rows, ∀ X, X ∈ db →
      (∃ row1 ∈ f.rows, rowHolds table row1 X) →
      (∀ kv ∈ row, kv.2.isSome = true → mapKey table kv.1 ≠ X) →
      optRecordOfRow table db (optAllFields table db f.rows) ticker expirationDate
          createdAt row ∈ recs ∧
      X ∈ keysOf (optRecordOfRow table db (optAllFields table db f.rows) ticker
          expirationDate createdAt row) ∧
      recGet (optRecordOfRow table db (optAllFields table db f.rows) ticker
          expirationDate createdAt row) X = some none) := by
  rcases save_options_submitted_inv table db f ticker optionType expirationDate
    createdAt tn cols recs sql h with ⟨hrecs, -, -⟩
  constructor
  · intro rec hrec k
    rw [hrecs] at hrec
    rcases List.mem_map.1 hrec with ⟨row, hrow, rfl⟩
    rw [mem_keysOf_optRecordOfRow]
    have hcollapse : (k ∈ db ∧ rowHolds table row k) → k ∈ optAllFields table db f.rows :=
      fun hk => (mem_optAllFields table db f.rows k).2 ⟨hk.1, row, hrow, hk.2⟩
    constructor
    · rintro ⟨hor, hdb⟩
      refine ⟨?_, hdb⟩
      rcases hor with hor | hor | hor
      · exact Or.inl hor
      · exact Or.inr hor
      · exact Or.inr (hcollapse hor)
    · rintro ⟨hor, hdb⟩
      refine ⟨?_, hdb⟩
      rcases hor with hor | hor
      · exact Or.inl hor
      · exact Or.inr (Or.inl hor)
  · intro row hrow X hdb hsome hlacks
    have hall : X ∈ optAllFields table db f.rows := by
      rcases hsome with ⟨row1, hrow1, hholds⟩
      exact (mem_optAllFields table db f.rows X).2 ⟨hdb, row1, hrow1, hholds⟩
    refine ⟨?_, ?_, ?_⟩
    · rw [hrecs]
      exact List.mem_map_of_mem _ hrow
    · rw [mem_keysOf_optRecordOfRow]
      exact ⟨Or.inr (Or.inl hall), hdb⟩
    · exact recGet_optRecordOfRow_null table db (optAllFields table db f.rows)
        ticker expirationDate createdAt row X hdb hall hlacks

/-- C5 witness: in the concrete sparse batch, the record built for the row
with a NaN `bid` cell is submitted, contains the key `bid`, and carries a
null `bid` value. -/
theorem claim_C5_witness :
    optRecordOfRow sampleOptTable wOptDb
        (optAllFields sampleOptTable wOptDb wOptFrame.rows) "T" "2024-01-19" 7
        wOptRow2 ∈
      [optRecordOfRow sampleOptTable wOptDb
          (optAllFields sampleOptTable wOptDb wOptFrame.rows) "T" "2024-01-19" 7
          wOptRow1,
        optRecordOfRow sampleOptTable wOptDb
          (optAllFields sampleOptTable wOptDb wOptFrame.rows) "T" "2024-01-19" 7
          wOptRow2] ∧
    "bid" ∈ keysOf (optRecordOfRow sampleOptTable wOptDb
        (optAllFields sampleOptTable wOptDb wOptFrame.rows) "T" "2024-01-19" 7
        wOptRow2) ∧
    recGet (optRecordOfRow sampleOptTable wOptDb
        (optAllFields sampleOptTable wOptDb wOptFrame.rows) "T" "2024-01-19" 7
        wOptRow2) "bid" = some none :=
  (claim_C5_amended_batch_union sampleOptTable wOptDb wOptFrame "T" "puts"
      "2024-01-19" 7 "put_options" _ _ _ rfl).2
    wOptRow2 (by decide) "bid" (by decide)
    ⟨wOptRow1, by decide, by decide⟩ (by decide)

/-- C5 counterexample: the claim as stated — every output record's column
set is exactly the pass-1 union of schema-valid row fields — fails: with
`created_at` in the live schema, the submitted record also contains the
caller-injected `created_at` column, which is not in the pass-1 union. -/
theorem claim_C5_counterexample :
    save_options_data_upsert sampleOptTable ["contract_symbol", "created_at"]
        ⟨["contractSymbol"], [[("contractSymbol", some (Val.vStr "A"))]]⟩
        "T" "puts" "2024-01-19" 7 =
      OptionsOutcome.submitted "put_options" ["created_at", "contract_symbol"]
        [[("created_at", some (Val.vDate 7)), ("contract_symbol", some (Val.vStr "A"))]]
        "INSERT INTO put_options (`created_at`, `contract_symbol`) VALUES (:created_at, :contract_symbol) ON DUPLICATE KEY UPDATE " ∧
    "created_at" ∈ keysOf
      [("created_at", some (Val.vDate 7)), ("contract_symbol", some (Val.vStr "A"))] ∧
    "created_at" ∉ optAllFields sampleOptTable ["contract_symbol", "created_at"]
      [[("contractSymbol", some (Val.vStr "A"))]] := by
  refine ⟨by decide, by decide, by decide⟩

/-- C10 (amended): a field enters the batch-wide column union exactly when
it is a live-schema column for which at least one input row holds a
non-null value; and a column that no row holds — provided it is not one of
the caller-injected `ticker`/`expiration_date`/`created_at` fields — is
absent from every submitted record and from the emitted column list, so
the submitted column set depends on the data, not on the schema alone. -/
theorem claim_C10_amended_union_membership :
    (∀ (table : List (String × String)) (db : List String) (rows : List OptRow)
      (k : String),
      k ∈ optAllFields table db rows ↔ (k ∈ db ∧ ∃ row ∈ rows, rowHolds table row k)) ∧
    (∀ (table : List (String × String)) (db : List String) (f : OptFrame)
      (ticker optionType expirationDate : String) (createdAt : Nat)
      (tn : String) (cols : List String) (recs : List OptRecord) (sql : String)
      (k : String),
      save_options_data_upsert table db f ticker optionType expirationDate createdAt =
        OptionsOutcome.submitted tn cols recs sql →
      (∀ row ∈ f.rows, ¬ rowHolds table row k) →
      k ∉ ["ticker", "expiration_date", "created_at"] →
      (∀ rec ∈ recs, k ∉ keysOf rec) ∧ k ∉ cols) := by
  constructor
  · exact mem_optAllFields
  · intro table db f ticker optionType expirationDate createdAt tn cols recs sql k
      h hnone hnotbase
    rcases save_options_submitted_inv table db f ticker optionType expirationDate
      createdAt tn cols recs sql h with ⟨hrecs, ⟨r0, rs, hcons, hcols, -⟩, -⟩
    have hnotall : k ∉ optAllFields table db f.rows := by
      rw [mem_optAllFields]
      rintro ⟨-, row, hrow, hholds⟩
      exact hnone row hrow hholds
    have hkeys : ∀ rec ∈ recs, k ∉ keysOf rec := by
      intro rec hrec hk
      rw [hrecs] at hrec
      rcases List.mem_map.1 hrec with ⟨row, hrow, rfl⟩
      rw [mem_keysOf_optRecordOfRow] at hk
      rcases hk with ⟨hor | hor | hor, -⟩
      · exact hnotbase hor
      · exact hnotall hor
      · exact hnone row hrow hor.2
    refine ⟨hkeys, ?_⟩
    rw [hcols]
    exact hkeys r0 (hcons ▸ List.mem_cons_self r0 rs)

/-- C10 witness: `strike_price` is in the schema and held by the single
row, so it is in the union; `last_price` is in the schema but held by no
row and absent from the record and the column list. -/
theorem claim_C10_witness :
    "strike_price" ∈ optAllFields sampleOptTable ["created_at", "strike_price", "last_price"]
        c10Frame.rows ∧
    (∀ rec ∈ [[("created_at", some (Val.vDate 9)), ("strike_price", some (Val.vNum 5))]],
      "last_price" ∉ keysOf rec) ∧
    "last_price" ∉ ["created_at", "strike_price"] :=
  ⟨(claim_C10_amended_union_membership.1 sampleOptTable
      ["created_at", "strike_price", "last_price"] c10Frame.rows "strike_price").mpr
      ⟨by decide, [("created_at", none), ("strike_price", some (Val.vNum 5))], by decide,
        ⟨("strike_price", some (Val.vNum 5)), by decide, by decide, by decide⟩⟩,
   (claim_C10_amended_union_membership.2 sampleOptTable
      ["created_at", "strike_price", "last_price"] c10Frame "T" "calls" "2024-02-16" 9
      "call_options" _ _ _ "last_price" rfl (by decide) (by decide))⟩

/-- C10 counterexample: the claim as stated fails for the caller-injected
`created_at` column: it is in the live schema, every row of the batch has
it NaN (no row holds it), yet it appears in every submitted record and in
the emitted column list. -/
theorem claim_C10_counterexample :
    save_options_data_upsert sampleOptTable ["created_at", "strike_price"] c10Frame
        "T" "calls" "2024-02-16" 9 =
      OptionsOutcome.submitted "call_options" ["created_at", "strike_price"]
        [[("created_at", some (Val.vDate 9)), ("strike_price", some (Val.vNum 5))]]
        "INSERT INTO call_options (`created_at`, `strike_price`) VALUES (:created_at, :strike_price) ON DUPLICATE KEY UPDATE `strike_price` = VALUES(`strike_price`)" ∧
    "created_at" ∈ ["created_at", "strike_price"] ∧
    (∀ row ∈ c10Frame.rows, ¬ rowHolds sampleOptTable row "created_at") ∧
    "created_at" ∈ keysOf
      [("created_at", some (Val.vDate 9)), ("strike_price", some (Val.vNum 5))] := by
  refine ⟨by decide, by decide, by decide, by decide⟩

/-- C8 (amended): only the options upsert path quotes identifiers — it
wraps every emitted column name in backticks inside the executed statement
text; the price path interpolates a fixed all-safe column list; the
company path interpolates column names without quoting (see the
counterexample), so the original claim holds for the options and price
statements but not for the company statement. -/
theorem claim_C8_amended_quoting :
    (∀ (table : List (String × String)) (db : List String) (f : OptFrame)
      (ticker optionType expirationDate : String) (createdAt : Nat)
      (tn : String) (cols : List String) (recs : List OptRecord) (sql : String),
      save_options_data_upsert table db f ticker optionType expirationDate createdAt =
        OptionsOutcome.submitted tn cols recs sql →
      ∀ c ∈ cols, occursIn ("`" ++ c ++ "`") sql = true) ∧
    (∀ c ∈ ["date", "ticker", "open", "high", "low", "close"], isSafeName c = true) := by
  constructor
  · intro table db f ticker optionType expirationDate createdAt tn cols recs sql h c hc
    rcases save_options_submitted_inv table db f ticker optionType expirationDate
      createdAt tn cols recs sql h with ⟨-, ⟨r0, rs, -, -, hsql⟩, -⟩
    rw [hsql]
    unfold optionsSqlFor
    apply occursIn_append_of_left
    apply occursIn_append_of_left
    apply occursIn_append_of_left
    apply occursIn_append_of_left
    apply occursIn_append_of_right
    exact occursIn_mem_joinSep _ ", " _ (List.mem_map_of_mem (fun c => "`" ++ c ++ "`") hc)
  · intro c hc
    fin_cases hc <;> decide

/-- C8 witness: in a concrete options run whose schema has a column name
containing a space, the assembled statement carries the backtick-quoted
form of that unsafe name, and the fixed price columns are all safe. -/
theorem claim_C8_witness :
    occursIn ("`" ++ "bad name" ++ "`")
      "INSERT INTO call_options (`created_at`, `bad name`) VALUES (:created_at, :bad name) ON DUPLICATE KEY UPDATE `bad name` = VALUES(`bad name`)" = true ∧
    isSafeName "close" = true :=
  ⟨claim_C8_amended_quoting.1 sampleOptTable ["bad name", "created_at"] c8Frame
      "T" "calls" "2024-02-16" 9 "call_options"
      ["created_at", "bad name"]
      [[("created_at", some (Val.vDate 9)), ("bad name", some (Val.vNum 3))]]
      "INSERT INTO call_options (`created_at`, `bad name`) VALUES (:created_at, :bad name) ON DUPLICATE KEY UPDATE `bad name` = VALUES(`bad name`)"
      (by decide) "bad name" (by decide),
   claim_C8_amended_quoting.2 "close" (by decide)⟩

/-- C8 counterexample: the claim as stated fails on the company path.
With a live-schema column "bad col" (not alphanumeric-plus-underscore),
the company statement interpolates the name bare: the executed text
contains the unquoted name and never its backtick-quoted form. -/
theorem claim_C8_counterexample :
    save_company_data_upsert sampleCompanyTable ["symbol", "bad col"] "companies"
        [("symbol", CVal.scalar (Val.vStr "GD")), ("bad col", CVal.scalar (Val.vNum 1))] =
      Except.ok ("INSERT INTO companies (symbol, bad col) VALUES (:symbol, :bad col) ON DUPLICATE KEY UPDATE bad col = VALUES(bad col)",
        [("symbol", Val.vStr "GD"), ("bad col", Val.vNum 1)]) ∧
    isSafeName "bad col" = false ∧
    occursIn "bad col"
      "INSERT INTO companies (symbol, bad col) VALUES (:symbol, :bad col) ON DUPLICATE KEY UPDATE bad col = VALUES(bad col)" = true ∧
    occursIn ("`" ++ "bad col" ++ "`")
      "INSERT INTO companies (symbol, bad col) VALUES (:symbol, :bad col) ON DUPLICATE KEY UPDATE bad col = VALUES(bad col)" = false := by
  refine ⟨by rfl, by decide, by decide, by decide⟩
